import Mathlib

/-!
Verification of the nycpulse real-time train tracking core.

Backend side (src/backend/src/gtfs/mod.rs): decoding of GTFS-realtime
feeds into trip updates and computation of interpolated train positions.
Frontend side (src/frontend/src/subway_data.rs): the tracked position
store that merges snapshots and extrapolates between polls.

Machine reals (f64) are modelled by ℚ, machine integers (i64) by ℤ;
hash maps are modelled by association lists with key-based operations.
-/

namespace NycPulse

/-! Data model, from backend/src/lib.rs and the gtfs_rt wire types. -/

structure StopLocation where
  stop_id : String
  latitude : ℚ
  longitude : ℚ
  deriving DecidableEq

structure TrainPosition where
  trip_id : String
  route_id : String
  from_stop : StopLocation
  to_stop : StopLocation
  progress : ℚ
  start_time : ℤ
  end_time : ℤ
  deriving DecidableEq

/-- gtfs_rt StopTimeEvent: a wrapper holding an optional time. -/
structure TimeSpec where
  time : Option ℤ
  deriving DecidableEq

/-- gtfs_rt StopTimeUpdate: optional stop id with optional arrival and
departure events. -/
structure StopTimeUpdate where
  stop_id : Option String
  arrival : Option TimeSpec
  departure : Option TimeSpec
  deriving DecidableEq

structure TripDescriptor where
  trip_id : Option String
  route_id : Option String
  deriving DecidableEq

structure TripUpdate where
  trip : TripDescriptor
  stop_time_update : List StopTimeUpdate
  deriving DecidableEq

structure FeedEntity where
  trip_update : Option TripUpdate
  deriving DecidableEq

structure FeedMessage where
  entity : List FeedEntity
  deriving DecidableEq

/-! Backend: GtfsHandler.get_train_positions (backend/src/gtfs/mod.rs,
lines 103-241). The stop_locations HashMap is an association list. -/

/-- The stop_locations map: stop id to (latitude, longitude). -/
abbrev StopIndex := List (String × ℚ × ℚ)

def lookupStop : StopIndex → String → Option (ℚ × ℚ)
  | [], _ => none
  | e :: rest, k => if e.1 = k then some e.2 else lookupStop rest k

/-- Rust Option::or on optional values. -/
def optOr {α : Type} : Option α → Option α → Option α
  | some x, _ => some x
  | none, b => b

/-- Resolved segment start time: from_stop.departure.or(from_stop.arrival)
followed by and_then on the inner time (mod.rs lines 167-171). -/
def resolveFromTime (s : StopTimeUpdate) : Option ℤ :=
  (optOr s.departure s.arrival).bind TimeSpec.time

/-- Resolved segment end time: to_stop.arrival.or(to_stop.departure)
followed by and_then on the inner time (mod.rs lines 172-176). -/
def resolveToTime (s : StopTimeUpdate) : Option ℤ :=
  (optOr s.arrival s.departure).bind TimeSpec.time

/-- Processing of one window of two consecutive stop time updates
(mod.rs lines 163-221): resolve both times and both stop ids, check
that now lies in [from_time, to_time], resolve both stops through the
index, and emit an interpolated position. -/
def processWindow (stops : StopIndex) (tripId routeId : String)
    (w0 w1 : StopTimeUpdate) (now : ℤ) : Option TrainPosition :=
  match resolveFromTime w0, resolveToTime w1, w0.stop_id, w1.stop_id with
  | some fromTime, some toTime, some fromStopId, some toStopId =>
      if fromTime ≤ now ∧ now ≤ toTime then
        match lookupStop stops fromStopId, lookupStop stops toStopId with
        | some fromLoc, some toLoc =>
            some { trip_id := tripId
                 , route_id := routeId
                 , from_stop := ⟨fromStopId, fromLoc.1, fromLoc.2⟩
                 , to_stop := ⟨toStopId, toLoc.1, toLoc.2⟩
                 , progress := ((now - fromTime : ℤ) : ℚ) / ((toTime - fromTime : ℤ) : ℚ)
                 , start_time := fromTime
                 , end_time := toTime }
        | _, _ => none
      else none
  | _, _, _, _ => none

/-- Sliding windows of width two, as in slice::windows(2). -/
def windows2 {α : Type} : List α → List (α × α)
  | a :: b :: rest => (a, b) :: windows2 (b :: rest)
  | _ => []

/-- Processing of one trip update (mod.rs lines 154-222): missing trip
or route ids default to the empty string, then every consecutive pair
of stop time updates goes through processWindow. -/
def processTripUpdate (stops : StopIndex) (tu : TripUpdate) (now : ℤ) :
    List TrainPosition :=
  let routeId := tu.trip.route_id.getD ""
  let tripId := tu.trip.trip_id.getD ""
  (windows2 tu.stop_time_update).filterMap
    (fun w => processWindow stops tripId routeId w.1 w.2 now)

/-- Positions collected from one decoded feed message (mod.rs
lines 153-224): entities without a trip_update contribute nothing. -/
def processFeed (stops : StopIndex) (feed : FeedMessage) (now : ℤ) :
    List TrainPosition :=
  feed.entity.foldl
    (fun acc e =>
      match e.trip_update with
      | some tu => acc ++ processTripUpdate stops tu now
      | none => acc)
    []

/-- Outcome of fetching and decoding one feed source: either an error
(transport failure or protobuf decode failure) or a decoded message. -/
inductive SourceOutcome where
  | failed : String → SourceOutcome
  | decoded : FeedMessage → SourceOutcome
  deriving DecidableEq

/-- The source loop of get_train_positions (mod.rs lines 116-239): each
source is fetched and decoded in turn; the question-mark operator on the
fetch and on the decode propagates the first failure, discarding the
accumulated positions. -/
def getTrainPositionsFrom (stops : StopIndex) (now : ℤ) :
    List SourceOutcome → List TrainPosition → Except String (List TrainPosition)
  | [], acc => .ok acc
  | .failed e :: _, _ => .error e
  | .decoded feed :: rest, acc =>
      getTrainPositionsFrom stops now rest (acc ++ processFeed stops feed now)

/-- GtfsHandler::get_train_positions over the outcomes of its configured
feed sources. -/
def get_train_positions (stops : StopIndex) (feeds : List SourceOutcome)
    (now : ℤ) : Except String (List TrainPosition) :=
  getTrainPositionsFrom stops now feeds []

/-! Frontend: fetch_train_positions and the global TRAIN_STATES map
(frontend/src/subway_data.rs, lines 244-352). -/

/-- TrainState (subway_data.rs lines 28-33). -/
structure TrainState where
  position : TrainPosition
  current_progress : ℚ
  last_update : ℚ
  deriving DecidableEq

/-- The TRAIN_STATES map, keyed by trip id. -/
abbrev Store := List (String × TrainState)

def lookupStore : Store → String → Option TrainState
  | [], _ => none
  | e :: rest, k => if e.1 = k then some e.2 else lookupStore rest k

def storeKeys (s : Store) : List String := s.map Prod.fst

/-- The initial retain step (subway_data.rs line 256): entries whose
current_progress has reached 1.0 are dropped. -/
def retainActive : Store → Store
  | [] => []
  | e :: rest =>
      if e.2.current_progress < 1 then e :: retainActive rest
      else retainActive rest

/-- The progress increment of the movement continuation (subway_data.rs
lines 268-274): time_delta / total_journey_time when the journey time
is positive and 0.0 otherwise. -/
def progressIncrement (st : TrainState) (now : ℚ) : ℚ :=
  if 0 < ((st.position.end_time - st.position.start_time : ℤ) : ℚ)
  then (now - st.last_update) / ((st.position.end_time - st.position.start_time : ℤ) : ℚ)
  else 0

/-- Movement continuation for one state (subway_data.rs lines 268-276):
the increment is added to current_progress, capped at 1.0, and
last_update is set to the current time. -/
def extrapolateState (st : TrainState) (now : ℚ) : TrainState :=
  { st with current_progress := min (st.current_progress + progressIncrement st now) 1
          , last_update := now }

/-- The loop over existing states (subway_data.rs lines 265-278): the
keys are untouched and states whose trip id is absent from the update
continue their movement. -/
def extrapolateAbsent (s : Store) (updatedTrips : List String) (now : ℚ) : Store :=
  s.map (fun e =>
    (e.1, if e.1 ∈ updatedTrips then e.2 else extrapolateState e.2 now))

/-- One iteration of the new-position loop (subway_data.rs lines 281-299):
an existing entry is replaced only when the segment endpoints changed,
in which case the smoothed progress is reset to the reported progress;
a missing entry is inserted with current_progress 0.0. -/
def updateWithPosition (s : Store) (p : TrainPosition) (now : ℚ) : Store :=
  match lookupStore s p.trip_id with
  | some _ =>
      s.map (fun e =>
        (e.1,
          if e.1 = p.trip_id then
            if e.2.position.from_stop.stop_id ≠ p.from_stop.stop_id
                ∨ e.2.position.to_stop.stop_id ≠ p.to_stop.stop_id
            then ⟨p, p.progress, now⟩
            else e.2
          else e.2))
  | none => s ++ [(p.trip_id, ⟨p, 0, now⟩)]

def applyNewPositions (s : Store) (ps : List TrainPosition) (now : ℚ) : Store :=
  ps.foldl (fun acc p => updateWithPosition acc p now) s

/-- The store after one call of fetch_train_positions receiving the
positions ps at wall-clock time now: retain, extrapolate the trips
absent from the update, then merge the new positions. -/
def applySnapshotStore (s : Store) (ps : List TrainPosition) (now : ℚ) : Store :=
  applyNewPositions
    (extrapolateAbsent (retainActive s) (ps.map TrainPosition.trip_id) now)
    ps now

/-- The output filter (subway_data.rs line 304): only states with
current_progress below 1.0 produce a feature. -/
def liveEntries : Store → Store
  | [] => []
  | e :: rest =>
      if e.2.current_progress < 1 then e :: liveEntries rest
      else liveEntries rest

/-- Route colour map (subway_data.rs lines 325-337), keyed on the first
character of the route id with underscore as the empty default. -/
def routeColor (routeId : String) : String :=
  match routeId.toList.headD '_' with
  | 'A' | 'C' | 'E' => "#0039A6"
  | 'B' | 'D' | 'F' | 'M' => "#FF6319"
  | 'G' => "#6CBE45"
  | 'J' | 'Z' => "#996633"
  | 'L' => "#A7A9AC"
  | 'N' | 'Q' | 'R' | 'W' => "#FCCC0A"
  | '1' | '2' | '3' => "#EE352E"
  | '4' | '5' | '6' => "#00933C"
  | '7' => "#B933AD"
  | 'S' => "#808183"
  | _ => "#808183"

/-- The GeoJSON feature built for one live train (subway_data.rs
lines 305-345): name, route, colour and the coordinate blended between
the segment endpoints by current_progress. -/
structure TrainFeature where
  name : String
  lines : String
  color : String
  longitude : ℚ
  latitude : ℚ
  deriving DecidableEq

def featureOfState (st : TrainState) : TrainFeature :=
  let currentLat := st.position.from_stop.latitude +
    (st.position.to_stop.latitude - st.position.from_stop.latitude) * st.current_progress
  let currentLon := st.position.from_stop.longitude +
    (st.position.to_stop.longitude - st.position.from_stop.longitude) * st.current_progress
  { name := "Train " ++ st.position.route_id
  , lines := st.position.route_id
  , color := routeColor st.position.route_id
  , longitude := currentLon
  , latitude := currentLat }

/-- fetch_train_positions: the updated store together with the rendered
feature collection. -/
def fetch_train_positions (s : Store) (ps : List TrainPosition) (now : ℚ) :
    Store × List TrainFeature :=
  let s3 := applySnapshotStore s ps now
  (s3, (liveEntries s3).map (fun e => featureOfState e.2))

/-! Concrete fixtures for witnesses and counterexamples, mirroring the
end-to-end scenario of the specification (trip T1, route L, departure
1000 at L06N, arrival 2000 at L08N). -/

def demoStops : StopIndex :=
  [("L06N", 407/10, -739/10), ("L08N", 4071/100, -7392/100)]

def stuS1 : StopTimeUpdate := ⟨some "L06N", none, some ⟨some 1000⟩⟩

def stuS2 : StopTimeUpdate := ⟨some "L08N", some ⟨some 2000⟩, none⟩

def goodFeed : FeedMessage :=
  ⟨[⟨some ⟨⟨some "T1", some "L"⟩, [stuS1, stuS2]⟩⟩]⟩

def demoPosT1 : TrainPosition :=
  ⟨"T1", "L", ⟨"L06N", 407/10, -739/10⟩, ⟨"L08N", 4071/100, -7392/100⟩,
    1/2, 1000, 2000⟩

/-! Helper lemmas about processWindow. -/

/-- Any position emitted by processWindow carries exactly the trip and
route ids it was given. -/
theorem processWindow_ids (stops : StopIndex) (tripId routeId : String)
    (w0 w1 : StopTimeUpdate) (now : ℤ) (pos : TrainPosition)
    (h : processWindow stops tripId routeId w0 w1 now = some pos) :
    pos.trip_id = tripId ∧ pos.route_id = routeId := by
  unfold processWindow at h
  split at h
  · split at h
    · split at h
      · cases h
        exact ⟨rfl, rfl⟩
      · cases h
    · cases h
  · cases h

/-- C1 helper: the source loop stops at the first failed source with
that source's error, for any accumulator. -/
theorem getTrainPositionsFrom_failed (stops : StopIndex) (now : ℤ)
    (pre : List SourceOutcome) (rest : List SourceOutcome) (e : String)
    (hpre : ∀ x ∈ pre, ∃ f, x = SourceOutcome.decoded f) :
    ∀ acc, getTrainPositionsFrom stops now
      (pre ++ SourceOutcome.failed e :: rest) acc = Except.error e := by
  induction pre with
  | nil => intro acc; rfl
  | cons x xs ih =>
      intro acc
      obtain ⟨f, rfl⟩ := hpre x (by simp)
      have hxs : ∀ y ∈ xs, ∃ f, y = SourceOutcome.decoded f :=
        fun y hy => hpre y (by simp [hy])
      simpa [getTrainPositionsFrom] using ih hxs _

/-! Claim C1. -/

/-- C1 counterexample: with a failing first source and a second source
that decodes to a feed yielding one position, get_train_positions
returns the error — it does not return the positions computed from the
source that succeeded, which that source alone would produce. -/
theorem claim_C1_cex :
    get_train_positions demoStops
      [SourceOutcome.failed "boom", SourceOutcome.decoded goodFeed] 1500 =
        Except.error "boom" ∧
    get_train_positions demoStops [SourceOutcome.decoded goodFeed] 1500 =
        Except.ok [demoPosT1] := by
  constructor
  · rfl
  · show Except.ok ([] ++ processFeed demoStops goodFeed 1500) =
      Except.ok [demoPosT1]
    rw [List.nil_append]
    have h : processFeed demoStops goodFeed 1500 = [demoPosT1] := by
      simp [processFeed, processTripUpdate, windows2, processWindow,
        resolveFromTime, resolveToTime, optOr, lookupStop, demoStops,
        stuS1, stuS2, goodFeed, demoPosT1]
      norm_num
    rw [h]

/-- C1 amended: a failure fetching or decoding any configured feed
source aborts the snapshot computation: get_train_positions propagates
the first failure and returns its error, discarding the positions of
the sources that succeeded before it and not processing the later
sources at all. -/
theorem claim_C1_amended_thm (stops : StopIndex) (now : ℤ)
    (pre rest : List SourceOutcome) (e : String)
    (hpre : ∀ x ∈ pre, ∃ f, x = SourceOutcome.decoded f) :
    get_train_positions stops (pre ++ SourceOutcome.failed e :: rest) now =
      Except.error e :=
  getTrainPositionsFrom_failed stops now pre rest e hpre []

/-- C1 amended witness at a concrete input. -/
theorem claim_C1_amended_witness :
    get_train_positions demoStops
      [SourceOutcome.decoded goodFeed, SourceOutcome.failed "boom"] 1500 =
        Except.error "boom" :=
  claim_C1_amended_thm demoStops 1500 [SourceOutcome.decoded goodFeed] [] "boom"
    (by intro x hx
        rw [List.mem_singleton] at hx
        exact ⟨goodFeed, hx⟩)

/-! Claim C9: reference time outside the segment. -/

/-- C9: for every pair of stop time updates whose resolved times are
start and endT, and every reference time now with now < start or
now > endT, processWindow emits no position for that segment. -/
theorem claim_C9_thm (stops : StopIndex) (tripId routeId : String)
    (w0 w1 : StopTimeUpdate) (now start endT : ℤ)
    (hs : resolveFromTime w0 = some start) (he : resolveToTime w1 = some endT)
    (h : now < start ∨ endT < now) :
    processWindow stops tripId routeId w0 w1 now = none := by
  unfold processWindow
  rw [hs, he]
  cases h0 : w0.stop_id with
  | none => rfl
  | some fs =>
      cases h1 : w1.stop_id with
      | none => rfl
      | some ts =>
          have hc : ¬(start ≤ now ∧ now ≤ endT) := by omega
          simp [hc]

/-- C9 witness: now = 500 lies before the segment [1000, 2000]. -/
theorem claim_C9_witness :
    processWindow demoStops "T1" "L" stuS1 stuS2 500 = none :=
  claim_C9_thm demoStops "T1" "L" stuS1 stuS2 500 1000 2000 rfl rfl
    (Or.inl (by decide))

/-! Claim C8: endpoint stop missing from the stop location index. -/

/-- C8: if either endpoint stop id of a candidate segment has no entry
in the stop location index, processWindow emits no position for that
segment, whatever the reference time and the timing data. -/
theorem claim_C8_thm (stops : StopIndex) (tripId routeId : String)
    (w0 w1 : StopTimeUpdate) (now : ℤ) (fs ts : String)
    (h0 : w0.stop_id = some fs) (h1 : w1.stop_id = some ts)
    (h : lookupStop stops fs = none ∨ lookupStop stops ts = none) :
    processWindow stops tripId routeId w0 w1 now = none := by
  unfold processWindow
  cases hft : resolveFromTime w0 with
  | none => rfl
  | some fromTime =>
      cases htt : resolveToTime w1 with
      | none => rfl
      | some toTime =>
          rw [h0, h1]
          by_cases hc : fromTime ≤ now ∧ now ≤ toTime
          · rcases h with h | h
            · simp [hc, h]
            · cases hy : lookupStop stops fs with
              | none => simp [hc, hy]
              | some fl => simp [hc, hy, h]
          · simp [hc]

/-- C8 witness: stop Z99X is absent from the demo index. -/
theorem claim_C8_witness :
    processWindow demoStops "T1" "L" ⟨some "Z99X", none, some ⟨some 1000⟩⟩
      stuS2 1500 = none :=
  claim_C8_thm demoStops "T1" "L" ⟨some "Z99X", none, some ⟨some 1000⟩⟩
    stuS2 1500 "Z99X" "L08N" rfl rfl (Or.inl rfl)

/-! Claim C5: interpolation on a proper segment. -/

/-- C5: on a segment with resolved times start < endT, both stops
resolving through the index, and start ≤ now ≤ endT, processWindow
emits a position whose progress is (now - start) / (endT - start); that
value is 0 at now = start, 1 at now = endT, and lies strictly between 0
and 1 when start < now < endT. -/
theorem claim_C5_thm (stops : StopIndex) (tripId routeId : String)
    (w0 w1 : StopTimeUpdate) (now start endT : ℤ) (fs ts : String)
    (fl tl : ℚ × ℚ)
    (hs : resolveFromTime w0 = some start) (he : resolveToTime w1 = some endT)
    (h0 : w0.stop_id = some fs) (h1 : w1.stop_id = some ts)
    (hf : lookupStop stops fs = some fl) (ht : lookupStop stops ts = some tl)
    (hlt : start < endT) (hnow : start ≤ now ∧ now ≤ endT) :
    processWindow stops tripId routeId w0 w1 now =
      some { trip_id := tripId, route_id := routeId
           , from_stop := ⟨fs, fl.1, fl.2⟩, to_stop := ⟨ts, tl.1, tl.2⟩
           , progress := ((now - start : ℤ) : ℚ) / ((endT - start : ℤ) : ℚ)
           , start_time := start, end_time := endT } ∧
    (now = start →
      ((now - start : ℤ) : ℚ) / ((endT - start : ℤ) : ℚ) = 0) ∧
    (now = endT →
      ((now - start : ℤ) : ℚ) / ((endT - start : ℤ) : ℚ) = 1) ∧
    (start < now → now < endT →
      0 < ((now - start : ℤ) : ℚ) / ((endT - start : ℤ) : ℚ) ∧
        ((now - start : ℤ) : ℚ) / ((endT - start : ℤ) : ℚ) < 1) := by
  have hden : (0 : ℚ) < ((endT - start : ℤ) : ℚ) := by
    exact_mod_cast (by omega : (0 : ℤ) < endT - start)
  refine ⟨?_, ?_, ?_, ?_⟩
  · unfold processWindow
    rw [hs, he, h0, h1]
    simp [hnow, hf, ht]
  · intro hn
    subst hn
    simp
  · intro hn
    subst hn
    exact div_self (ne_of_gt hden)
  · intro hp hq
    constructor
    · exact div_pos (by exact_mod_cast (by omega : (0 : ℤ) < now - start)) hden
    · exact (div_lt_one hden).mpr
        (by exact_mod_cast (by omega : now - start < endT - start))

/-- C5 witness: the end-to-end scenario at now = 1500 gives progress
one half. -/
theorem claim_C5_witness :
    processWindow demoStops "T1" "L" stuS1 stuS2 1500 = some demoPosT1 := by
  have h := claim_C5_thm demoStops "T1" "L" stuS1 stuS2 1500 1000 2000
    "L06N" "L08N" (407/10, -739/10) (4071/100, -7392/100)
    rfl rfl rfl rfl rfl rfl (by decide) (by decide)
  rw [h.1]
  norm_num [demoPosT1]

/-! Claim C3: degenerate segment with end = start. -/

def stuDegenA : StopTimeUpdate := ⟨some "L06N", none, some ⟨some 1000⟩⟩

def stuDegenB : StopTimeUpdate := ⟨some "L08N", some ⟨some 1000⟩, none⟩

/-- C3: at the failing input (a segment whose resolved start and end
times are both 1000, reference time 1000, both stops in the index) the
code does emit a position, with segment_end_time equal to
segment_start_time, so its progress is computed as the division
(now - start) / (end - start) with a zero divisor. -/
theorem claim_C3_code_bug_eval :
    ∃ pos, processWindow demoStops "T1" "L" stuDegenA stuDegenB 1000 =
      some pos ∧ pos.end_time = pos.start_time :=
  ⟨_, rfl, rfl⟩

/-! Claim C10: trip updates with missing trip or route identifiers. -/

/-- C10: a trip update whose trip_id (or route_id) is absent is still
processed: the emitted positions are exactly those of the same update
with the empty string in that field, and every emitted position carries
the empty string for the missing identifier. -/
theorem claim_C10_thm (stops : StopIndex) (trip : TripDescriptor)
    (stus : List StopTimeUpdate) (now : ℤ) :
    (trip.trip_id = none →
      processTripUpdate stops ⟨trip, stus⟩ now =
        processTripUpdate stops ⟨⟨some "", trip.route_id⟩, stus⟩ now ∧
      ∀ pos ∈ processTripUpdate stops ⟨trip, stus⟩ now, pos.trip_id = "") ∧
    (trip.route_id = none →
      processTripUpdate stops ⟨trip, stus⟩ now =
        processTripUpdate stops ⟨⟨trip.trip_id, some ""⟩, stus⟩ now ∧
      ∀ pos ∈ processTripUpdate stops ⟨trip, stus⟩ now, pos.route_id = "") := by
  obtain ⟨tid, rid⟩ := trip
  constructor
  · intro htid
    subst htid
    refine ⟨rfl, ?_⟩
    intro pos hpos
    rw [processTripUpdate, List.mem_filterMap] at hpos
    obtain ⟨w, _, hw⟩ := hpos
    exact (processWindow_ids _ _ _ _ _ _ _ hw).1
  · intro hrid
    subst hrid
    refine ⟨rfl, ?_⟩
    intro pos hpos
    rw [processTripUpdate, List.mem_filterMap] at hpos
    obtain ⟨w, _, hw⟩ := hpos
    exact (processWindow_ids _ _ _ _ _ _ _ hw).2

/-- The position emitted for the demo trip when both identifiers are
absent from the trip descriptor. -/
def demoPosAnon : TrainPosition :=
  ⟨"", "", ⟨"L06N", 407/10, -739/10⟩, ⟨"L08N", 4071/100, -7392/100⟩,
    1/2, 1000, 2000⟩

/-- C10 witness: the demo trip with both identifiers absent still emits
its position, carrying empty identifier strings. -/
theorem claim_C10_witness :
    (processTripUpdate demoStops ⟨⟨none, none⟩, [stuS1, stuS2]⟩ 1500 =
      processTripUpdate demoStops ⟨⟨some "", none⟩, [stuS1, stuS2]⟩ 1500) ∧
    demoPosAnon.trip_id = "" :=
  ⟨((claim_C10_thm demoStops ⟨none, none⟩ [stuS1, stuS2] 1500).1 rfl).1,
   ((claim_C10_thm demoStops ⟨none, none⟩ [stuS1, stuS2] 1500).1 rfl).2
     demoPosAnon
     (by
       have h : processTripUpdate demoStops ⟨⟨none, none⟩, [stuS1, stuS2]⟩ 1500
           = [demoPosAnon] := by
         simp [processTripUpdate, windows2, processWindow, resolveFromTime,
           resolveToTime, optOr, lookupStop, demoStops, stuS1, stuS2,
           demoPosAnon]
         norm_num
       rw [h]
       exact List.mem_singleton.mpr rfl)⟩

/-! Association list lemmas for the tracked store. -/

theorem optOr_none_right {α : Type} (a : Option α) : optOr a none = a := by
  cases a <;> rfl

theorem lookupStore_append (s l : Store) (t : String) :
    lookupStore (s ++ l) t = optOr (lookupStore s t) (lookupStore l t) := by
  induction s with
  | nil => rfl
  | cons e rest ih =>
      by_cases he : e.1 = t
      · simp [lookupStore, he, optOr]
      · simp [lookupStore, he, ih]

theorem lookupStore_eq_none_iff (s : Store) (t : String) :
    lookupStore s t = none ↔ t ∉ s.map Prod.fst := by
  induction s with
  | nil => simp [lookupStore]
  | cons e rest ih =>
      by_cases he : e.1 = t
      · subst he
        simp [lookupStore]
      · simp [lookupStore, he, ih, Ne.symm he]

theorem lookupStore_map_entries (F : String × TrainState → TrainState)
    (s : Store) (t : String) :
    lookupStore (s.map (fun e => (e.1, F e))) t =
      (lookupStore s t).map (fun v => F (t, v)) := by
  induction s with
  | nil => rfl
  | cons e rest ih =>
      by_cases he : e.1 = t
      · subst he
        simp [lookupStore]
      · simp [lookupStore, he, ih]

theorem storeKeys_map_entries (F : String × TrainState → TrainState) (s : Store) :
    (s.map (fun e => (e.1, F e))).map Prod.fst = s.map Prod.fst := by
  induction s with
  | nil => rfl
  | cons e rest ih => simp [ih]

theorem lookupStore_retainActive_lt (s : Store) (t : String) (st : TrainState)
    (h : lookupStore s t = some st) (hp : st.current_progress < 1) :
    lookupStore (retainActive s) t = some st := by
  induction s with
  | nil => cases h
  | cons e rest ih =>
      rw [lookupStore] at h
      by_cases he : e.1 = t
      · rw [if_pos he] at h
        injection h with h1
        subst h1
        rw [retainActive, if_pos hp, lookupStore, if_pos he]
      · rw [if_neg he] at h
        rw [retainActive]
        by_cases hq : e.2.current_progress < 1
        · rw [if_pos hq, lookupStore, if_neg he]
          exact ih h
        · rw [if_neg hq]
          exact ih h

theorem lookupStore_retainActive_none (s : Store) (t : String)
    (h : lookupStore s t = none) :
    lookupStore (retainActive s) t = none := by
  induction s with
  | nil => rfl
  | cons e rest ih =>
      rw [lookupStore] at h
      by_cases he : e.1 = t
      · rw [if_pos he] at h
        cases h
      · rw [if_neg he] at h
        rw [retainActive]
        by_cases hq : e.2.current_progress < 1
        · rw [if_pos hq, lookupStore, if_neg he]
          exact ih h
        · rw [if_neg hq]
          exact ih h

theorem lookupStore_retainActive_ge (s : Store) (t : String) (st : TrainState)
    (hnd : (s.map Prod.fst).Nodup)
    (h : lookupStore s t = some st) (hp : ¬ st.current_progress < 1) :
    lookupStore (retainActive s) t = none := by
  induction s with
  | nil => cases h
  | cons e rest ih =>
      rw [List.map_cons, List.nodup_cons] at hnd
      rw [lookupStore] at h
      by_cases he : e.1 = t
      · rw [if_pos he] at h
        injection h with h1
        subst h1
        rw [retainActive, if_neg hp]
        apply lookupStore_retainActive_none
        rw [lookupStore_eq_none_iff]
        rw [← he]
        exact hnd.1
      · rw [if_neg he] at h
        rw [retainActive]
        by_cases hq : e.2.current_progress < 1
        · rw [if_pos hq, lookupStore, if_neg he]
          exact ih hnd.2 h
        · rw [if_neg hq]
          exact ih hnd.2 h

theorem retainActive_sublist (s : Store) : (retainActive s).Sublist s := by
  induction s with
  | nil => exact List.Sublist.refl []
  | cons e rest ih =>
      rw [retainActive]
      by_cases hq : e.2.current_progress < 1
      · rw [if_pos hq]
        exact List.Sublist.cons₂ e ih
      · rw [if_neg hq]
        exact List.Sublist.cons e ih

theorem liveEntries_subset (s : Store) (e : String × TrainState)
    (h : e ∈ liveEntries s) : e ∈ s := by
  induction s with
  | nil => cases h
  | cons x rest ih =>
      rw [liveEntries] at h
      by_cases hq : x.2.current_progress < 1
      · rw [if_pos hq] at h
        rcases List.mem_cons.mp h with h | h
        · exact h ▸ List.mem_cons_self x rest
        · exact List.mem_cons_of_mem x (ih h)
      · rw [if_neg hq] at h
        exact List.mem_cons_of_mem x (ih h)

theorem lookupStore_extrapolateAbsent (s : Store) (u : List String) (now : ℚ)
    (t : String) :
    lookupStore (extrapolateAbsent s u now) t =
      (lookupStore s t).map
        (fun v => if t ∈ u then v else extrapolateState v now) :=
  lookupStore_map_entries _ s t

theorem lookupStore_updateWithPosition_ne (s : Store) (p : TrainPosition)
    (now : ℚ) (t : String) (h : p.trip_id ≠ t) :
    lookupStore (updateWithPosition s p now) t = lookupStore s t := by
  unfold updateWithPosition
  cases hl : lookupStore s p.trip_id with
  | some st =>
      rw [lookupStore_map_entries]
      cases hlt : lookupStore s t with
      | none => rfl
      | some v =>
          rw [Option.map_some']
          rw [if_neg (fun hc => h hc.symm)]
  | none =>
      rw [lookupStore_append]
      rw [show lookupStore [(p.trip_id, (⟨p, 0, now⟩ : TrainState))] t = none by
        rw [lookupStore, if_neg h]; rfl]
      exact optOr_none_right _

theorem lookupStore_applyNewPositions_notmem (ps : List TrainPosition)
    (s : Store) (now : ℚ) (t : String)
    (h : t ∉ ps.map TrainPosition.trip_id) :
    lookupStore (applyNewPositions s ps now) t = lookupStore s t := by
  induction ps generalizing s with
  | nil => rfl
  | cons p rest ih =>
      have h1 : p.trip_id ≠ t := by
        intro hc
        exact h (by rw [List.map_cons, hc]; exact List.mem_cons_self _ _)
      have h2 : t ∉ rest.map TrainPosition.trip_id := by
        intro hc
        exact h (by rw [List.map_cons]; exact List.mem_cons_of_mem _ hc)
      show lookupStore (applyNewPositions (updateWithPosition s p now) rest now) t = _
      rw [ih _ h2, lookupStore_updateWithPosition_ne _ _ _ _ h1]

theorem nodup_updateWithPosition (s : Store) (p : TrainPosition) (now : ℚ)
    (hnd : (s.map Prod.fst).Nodup) :
    ((updateWithPosition s p now).map Prod.fst).Nodup := by
  unfold updateWithPosition
  cases hl : lookupStore s p.trip_id with
  | some st =>
      rw [storeKeys_map_entries]
      exact hnd
  | none =>
      rw [List.map_append]
      rw [lookupStore_eq_none_iff] at hl
      simp [List.nodup_append, hnd, hl]

theorem nodup_applyNewPositions (ps : List TrainPosition) (s : Store) (now : ℚ)
    (hnd : (s.map Prod.fst).Nodup) :
    ((applyNewPositions s ps now).map Prod.fst).Nodup := by
  induction ps generalizing s with
  | nil => exact hnd
  | cons p rest ih =>
      show ((applyNewPositions (updateWithPosition s p now) rest now).map Prod.fst).Nodup
      exact ih _ (nodup_updateWithPosition s p now hnd)

theorem nodup_applySnapshotStore (s : Store) (ps : List TrainPosition) (now : ℚ)
    (hnd : (s.map Prod.fst).Nodup) :
    ((applySnapshotStore s ps now).map Prod.fst).Nodup := by
  unfold applySnapshotStore
  apply nodup_applyNewPositions
  rw [show extrapolateAbsent (retainActive s) (ps.map TrainPosition.trip_id) now
      = (retainActive s).map (fun e =>
          (e.1, if e.1 ∈ ps.map TrainPosition.trip_id then e.2
                else extrapolateState e.2 now)) from rfl]
  rw [storeKeys_map_entries]
  exact hnd.sublist ((retainActive_sublist s).map Prod.fst)

/-! Behaviour of one snapshot application on a single tracked trip. -/

theorem lookupStore_applySnapshotStore_live (s : Store) (ps : List TrainPosition)
    (now : ℚ) (t : String) (st : TrainState)
    (hst : lookupStore s t = some st) (hp : st.current_progress < 1)
    (hmem : t ∉ ps.map TrainPosition.trip_id) :
    lookupStore (applySnapshotStore s ps now) t =
      some (extrapolateState st now) := by
  unfold applySnapshotStore
  rw [lookupStore_applyNewPositions_notmem _ _ _ _ hmem,
      lookupStore_extrapolateAbsent,
      lookupStore_retainActive_lt s t st hst hp]
  simp [hmem]

theorem lookupStore_applySnapshotStore_done (s : Store) (ps : List TrainPosition)
    (now : ℚ) (t : String) (st : TrainState)
    (hnd : (s.map Prod.fst).Nodup)
    (hst : lookupStore s t = some st) (hp : ¬ st.current_progress < 1)
    (hmem : t ∉ ps.map TrainPosition.trip_id) :
    lookupStore (applySnapshotStore s ps now) t = none := by
  unfold applySnapshotStore
  rw [lookupStore_applyNewPositions_notmem _ _ _ _ hmem,
      lookupStore_extrapolateAbsent,
      lookupStore_retainActive_ge s t st hnd hst hp]
  rfl

theorem lookupStore_applySnapshotStore_absent (s : Store) (ps : List TrainPosition)
    (now : ℚ) (t : String)
    (hst : lookupStore s t = none) (hmem : t ∉ ps.map TrainPosition.trip_id) :
    lookupStore (applySnapshotStore s ps now) t = none := by
  unfold applySnapshotStore
  rw [lookupStore_applyNewPositions_notmem _ _ _ _ hmem,
      lookupStore_extrapolateAbsent,
      lookupStore_retainActive_none s t hst]
  rfl

/-! Facts about the movement continuation. -/

theorem progressIncrement_nonneg (st : TrainState) (now : ℚ)
    (hle : st.last_update ≤ now) : 0 ≤ progressIncrement st now := by
  unfold progressIncrement
  split
  · exact div_nonneg (by linarith) (le_of_lt (by assumption))
  · exact le_refl 0

theorem extrapolateState_last (st : TrainState) (now : ℚ) :
    (extrapolateState st now).last_update = now := rfl

theorem extrapolateState_le_one (st : TrainState) (now : ℚ) :
    (extrapolateState st now).current_progress ≤ 1 :=
  min_le_right _ _

theorem extrapolateState_mono (st : TrainState) (now : ℚ)
    (hle : st.last_update ≤ now) (hp : st.current_progress ≤ 1) :
    st.current_progress ≤ (extrapolateState st now).current_progress := by
  have hinc : 0 ≤ progressIncrement st now := progressIncrement_nonneg st now hle
  show st.current_progress ≤ min (st.current_progress + progressIncrement st now) 1
  exact le_min (by linarith) hp

/-! Merge of new positions: creation and stability of an entry. -/

theorem lookupStore_applyNewPositions_keep (ps : List TrainPosition)
    (s : Store) (now : ℚ) (t : String) (p : TrainPosition) (st : TrainState)
    (hs : lookupStore s t = some st) (hstp : st.position = p)
    (hall : ∀ q ∈ ps, q.trip_id = t → q = p) :
    lookupStore (applyNewPositions s ps now) t = some st := by
  induction ps generalizing s with
  | nil => exact hs
  | cons q rest ih =>
      show lookupStore (applyNewPositions (updateWithPosition s q now) rest now) t = _
      by_cases hq : q.trip_id = t
      · have hqp : q = p := hall q (List.mem_cons_self _ _) hq
        subst hqp
        have hupd : lookupStore (updateWithPosition s q now) t = some st := by
          unfold updateWithPosition
          rw [hq, hs]
          rw [lookupStore_map_entries _ s t, hs, Option.map_some']
          rw [if_pos rfl, if_neg]
          intro hc
          rcases hc with hc | hc <;> exact hc (by rw [hstp])
        exact ih _ hupd (fun r hr hrt => hall r (List.mem_cons_of_mem _ hr) hrt)
      · have hupd : lookupStore (updateWithPosition s q now) t = some st := by
          rw [lookupStore_updateWithPosition_ne s q now t hq]
          exact hs
        exact ih _ hupd (fun r hr hrt => hall r (List.mem_cons_of_mem _ hr) hrt)

theorem lookupStore_applyNewPositions_insert (ps : List TrainPosition)
    (s : Store) (now : ℚ) (t : String) (p : TrainPosition)
    (hs : lookupStore s t = none) (hp : p ∈ ps) (hpt : p.trip_id = t)
    (huniq : ∀ q ∈ ps, q.trip_id = t → q = p) :
    lookupStore (applyNewPositions s ps now) t = some ⟨p, 0, now⟩ := by
  induction ps generalizing s with
  | nil => cases hp
  | cons q rest ih =>
      show lookupStore (applyNewPositions (updateWithPosition s q now) rest now) t = _
      by_cases hq : q.trip_id = t
      · have hqp : q = p := huniq q (List.mem_cons_self _ _) hq
        subst hqp
        have hupd : lookupStore (updateWithPosition s q now) t =
            some ⟨q, 0, now⟩ := by
          unfold updateWithPosition
          rw [hq, hs]
          rw [lookupStore_append, hs]
          simp [lookupStore, optOr]
        exact lookupStore_applyNewPositions_keep rest _ now t q ⟨q, 0, now⟩
          hupd rfl (fun r hr hrt => huniq r (List.mem_cons_of_mem _ hr) hrt)
      · have hupd : lookupStore (updateWithPosition s q now) t = none := by
          rw [lookupStore_updateWithPosition_ne s q now t hq]
          exact hs
        have hp1 : p ∈ rest := by
          rcases List.mem_cons.mp hp with h | h
          · exact absurd (h ▸ hpt) hq
          · exact h
        exact ih _ hupd hp1 (fun r hr hrt => huniq r (List.mem_cons_of_mem _ hr) hrt)

/-! Claim C2: creation of a tracked entry for a new trip id. -/

/-- C2 counterexample: applying a snapshot with one position for the
unseen trip T1, whose reported progress is one half, creates an entry
whose smoothed progress is 0, not one half. -/
theorem claim_C2_cex :
    lookupStore (applySnapshotStore [] [demoPosT1] 200) "T1" =
      some ⟨demoPosT1, 0, 200⟩ ∧
    demoPosT1.progress = 1/2 ∧ (0 : ℚ) ≠ 1/2 :=
  ⟨rfl, rfl, by norm_num⟩

/-- C2 amended: when the tracked store receives a snapshot containing a
position whose trip id is not yet in the store (and no conflicting
position for the same trip), a new tracked entry is created holding
that position, with smoothed progress initialised to 0.0 — not to the
position's reported progress — and last-observed time set to the
current time. -/
theorem claim_C2_amended_thm (s : Store) (ps : List TrainPosition) (now : ℚ)
    (t : String) (p : TrainPosition)
    (hs : lookupStore s t = none) (hp : p ∈ ps) (hpt : p.trip_id = t)
    (huniq : ∀ q ∈ ps, q.trip_id = t → q = p) :
    lookupStore (applySnapshotStore s ps now) t = some ⟨p, 0, now⟩ := by
  unfold applySnapshotStore
  apply lookupStore_applyNewPositions_insert _ _ _ _ _ _ hp hpt huniq
  rw [lookupStore_extrapolateAbsent, lookupStore_retainActive_none s t hs]
  rfl

/-- C2 amended witness at a concrete input. -/
theorem claim_C2_amended_witness :
    lookupStore (applySnapshotStore [] [demoPosT1] 200) "T1" =
      some ⟨demoPosT1, 0, 200⟩ :=
  claim_C2_amended_thm [] [demoPosT1] 200 "T1" demoPosT1 rfl
    (List.mem_singleton.mpr rfl) rfl
    (fun _q hq _ => List.mem_singleton.mp hq)

/-! Claim C4: extrapolation during snapshot application. -/

/-- The demo tracked state: trip T1 on the demo segment of duration
1000, smoothed progress 0, last observed at time 100. -/
def demoStateT1 : TrainState := ⟨demoPosT1, 0, 100⟩

/-- C4 counterexample: trip T1 is tracked and present in the incoming
snapshot on an unchanged segment; applying the snapshot at time 200
leaves its state untouched — its last-observed time stays 100 instead
of being set to 200 (and its progress is not advanced), refuting the
claim that every tracked trip is advanced. -/
theorem claim_C4_cex :
    lookupStore (applySnapshotStore [("T1", demoStateT1)] [demoPosT1] 200) "T1" =
      some demoStateT1 ∧
    demoStateT1.last_update = 100 ∧ (100 : ℚ) ≠ 200 := by
  refine ⟨?_, rfl, by norm_num⟩
  show lookupStore (applyNewPositions (extrapolateAbsent
    (retainActive [("T1", demoStateT1)]) ([demoPosT1].map TrainPosition.trip_id)
    200) [demoPosT1] 200) "T1" = some demoStateT1
  rw [show retainActive [("T1", demoStateT1)] = [("T1", demoStateT1)] by
    rw [retainActive,
      if_pos (by norm_num [demoStateT1] : demoStateT1.current_progress < 1)]
    rfl]
  rw [show ([demoPosT1].map TrainPosition.trip_id) = ["T1"] from rfl]
  rw [show extrapolateAbsent [("T1", demoStateT1)] ["T1"] 200 =
      [("T1", demoStateT1)] by
    simp [extrapolateAbsent]]
  exact lookupStore_applyNewPositions_keep [demoPosT1] _ 200 "T1" demoPosT1
    demoStateT1 rfl rfl (fun q hq _ => List.mem_singleton.mp hq)

/-- C4 amended: on every application of a new snapshot, every tracked
trip that survives the pruning step (smoothed progress below 1.0) and
is absent from the snapshot has its smoothed progress advanced by
elapsed / segment_duration when the segment duration is positive (by 0
otherwise), capped at 1.0, and its last-observed time set to the
current time; trips present in the snapshot are not extrapolated. -/
theorem claim_C4_amended_thm (s : Store) (ps : List TrainPosition) (now : ℚ)
    (t : String) (st : TrainState)
    (hst : lookupStore s t = some st) (hp : st.current_progress < 1)
    (hmem : t ∉ ps.map TrainPosition.trip_id) :
    lookupStore (applySnapshotStore s ps now) t =
      some { position := st.position
           , current_progress := min (st.current_progress +
               (if 0 < ((st.position.end_time - st.position.start_time : ℤ) : ℚ)
                then (now - st.last_update) /
                  ((st.position.end_time - st.position.start_time : ℤ) : ℚ)
                else 0)) 1
           , last_update := now } :=
  lookupStore_applySnapshotStore_live s ps now t st hst hp hmem

/-- C4 amended witness at a concrete input. -/
theorem claim_C4_amended_witness :
    lookupStore (applySnapshotStore [("T1", demoStateT1)] [] 200) "T1" =
      some { position := demoStateT1.position
           , current_progress := min (demoStateT1.current_progress +
               (if 0 < ((demoStateT1.position.end_time -
                   demoStateT1.position.start_time : ℤ) : ℚ)
                then (200 - demoStateT1.last_update) /
                  ((demoStateT1.position.end_time -
                    demoStateT1.position.start_time : ℤ) : ℚ)
                else 0)) 1
           , last_update := 200 } :=
  claim_C4_amended_thm [("T1", demoStateT1)] [] 200 "T1" demoStateT1 rfl
    zero_lt_one (by simp)

/-! Claim C6: removal of a trip whose smoothed progress reached 1.0. -/

/-- C6: a tracked trip whose smoothed progress has reached 1.0 (and
that is not re-reported by the incoming snapshot) is removed from the
store by the next snapshot application and contributes no entry to the
live output — the feature list is the image of liveEntries, which
contains no entry for that trip. -/
theorem claim_C6_thm (s : Store) (ps : List TrainPosition) (now : ℚ)
    (t : String) (st : TrainState)
    (hnd : (s.map Prod.fst).Nodup)
    (hst : lookupStore s t = some st) (hp : 1 ≤ st.current_progress)
    (hmem : t ∉ ps.map TrainPosition.trip_id) :
    lookupStore (applySnapshotStore s ps now) t = none ∧
    (∀ e ∈ liveEntries (applySnapshotStore s ps now), e.1 ≠ t) ∧
    (fetch_train_positions s ps now).2 =
      (liveEntries (applySnapshotStore s ps now)).map
        (fun e => featureOfState e.2) := by
  have h1 : lookupStore (applySnapshotStore s ps now) t = none :=
    lookupStore_applySnapshotStore_done s ps now t st hnd hst (not_lt.mpr hp) hmem
  refine ⟨h1, ?_, rfl⟩
  intro e he hc
  rw [lookupStore_eq_none_iff] at h1
  exact h1 (hc ▸ List.mem_map_of_mem Prod.fst
    (liveEntries_subset _ e he))

/-- C6 witness at a concrete input: a finished trip (progress 1.0)
disappears from the store on the next application. -/
theorem claim_C6_witness :
    lookupStore (applySnapshotStore [("T1", ⟨demoPosT1, 1, 100⟩)] [] 200) "T1" =
      none :=
  (claim_C6_thm [("T1", ⟨demoPosT1, 1, 100⟩)] [] 200 "T1" ⟨demoPosT1, 1, 100⟩
    (by simp) rfl (le_refl 1) (by simp)).1

/-! Claim C7: monotone, clamped extrapolation across snapshot cycles. -/

/-- Iterated snapshot application: each step is one call of
fetch_train_positions with its list of positions and its wall-clock
time. -/
def applySnapshotSteps : Store → List (List TrainPosition × ℚ) → Store
  | s, [] => s
  | s, step :: rest => applySnapshotSteps (applySnapshotStore s step.1 step.2) rest

/-- The trip t appears in no snapshot of the sequence. -/
def stepsAvoid (t : String) : List (List TrainPosition × ℚ) → Prop
  | [] => True
  | step :: rest => t ∉ step.1.map TrainPosition.trip_id ∧ stepsAvoid t rest

/-- The wall-clock times of the sequence are non-decreasing, starting
no earlier than the given time. -/
def stepsMono : ℚ → List (List TrainPosition × ℚ) → Prop
  | _, [] => True
  | t0, step :: rest => t0 ≤ step.2 ∧ stepsMono step.2 rest

theorem lookupStore_applySnapshotSteps_none
    (steps : List (List TrainPosition × ℚ)) (s : Store) (t : String)
    (hst : lookupStore s t = none) (havoid : stepsAvoid t steps) :
    lookupStore (applySnapshotSteps s steps) t = none := by
  induction steps generalizing s with
  | nil => exact hst
  | cons step rest ih =>
      exact ih _ (lookupStore_applySnapshotStore_absent _ _ _ _ hst havoid.1)
        havoid.2

/-- C7: for a live tracked trip that appears in none of the subsequent
snapshots, any sequence of snapshot applications with non-decreasing
wall-clock times never decreases its smoothed progress, and the
smoothed progress never exceeds 1.0. -/
theorem claim_C7_thm (steps : List (List TrainPosition × ℚ)) (s : Store)
    (t : String) (st st' : TrainState)
    (hnd : (s.map Prod.fst).Nodup)
    (hst : lookupStore s t = some st) (hp : st.current_progress < 1)
    (havoid : stepsAvoid t steps) (hmono : stepsMono st.last_update steps)
    (hfin : lookupStore (applySnapshotSteps s steps) t = some st') :
    st.current_progress ≤ st'.current_progress ∧ st'.current_progress ≤ 1 := by
  induction steps generalizing s st with
  | nil =>
      rw [show applySnapshotSteps s [] = s from rfl, hst] at hfin
      injection hfin with h1
      subst h1
      exact ⟨le_refl _, le_of_lt hp⟩
  | cons step rest ih =>
      obtain ⟨ha1, ha2⟩ := havoid
      obtain ⟨hm1, hm2⟩ := hmono
      rw [show applySnapshotSteps s (step :: rest) =
        applySnapshotSteps (applySnapshotStore s step.1 step.2) rest from rfl]
        at hfin
      have hstep : lookupStore (applySnapshotStore s step.1 step.2) t =
          some (extrapolateState st step.2) :=
        lookupStore_applySnapshotStore_live s step.1 step.2 t st hst hp ha1
      have hnd1 : ((applySnapshotStore s step.1 step.2).map Prod.fst).Nodup :=
        nodup_applySnapshotStore s step.1 step.2 hnd
      have hmono1 : stepsMono (extrapolateState st step.2).last_update rest := by
        rw [extrapolateState_last]
        exact hm2
      have hge : st.current_progress ≤
          (extrapolateState st step.2).current_progress :=
        extrapolateState_mono st step.2 hm1 (le_of_lt hp)
      by_cases hlt : (extrapolateState st step.2).current_progress < 1
      · have hres := ih (applySnapshotStore s step.1 step.2)
          (extrapolateState st step.2) hnd1 hstep hlt ha2 hmono1 hfin
        exact ⟨le_trans hge hres.1, hres.2⟩
      · cases rest with
        | nil =>
            rw [show applySnapshotSteps (applySnapshotStore s step.1 step.2) []
              = applySnapshotStore s step.1 step.2 from rfl, hstep] at hfin
            injection hfin with h1
            subst h1
            exact ⟨hge, extrapolateState_le_one _ _⟩
        | cons step2 more =>
            have hnone : lookupStore (applySnapshotSteps
                (applySnapshotStore s step.1 step.2) (step2 :: more)) t = none := by
              rw [show applySnapshotSteps (applySnapshotStore s step.1 step.2)
                (step2 :: more) = applySnapshotSteps
                  (applySnapshotStore (applySnapshotStore s step.1 step.2)
                    step2.1 step2.2) more from rfl]
              apply lookupStore_applySnapshotSteps_none
              · exact lookupStore_applySnapshotStore_done _ _ _ _ _ hnd1 hstep
                  hlt ha2.1
              · exact ha2.2
            rw [hfin] at hnone
            cases hnone

/-- C7 witness: one extrapolation cycle from progress 0 at time 100 to
time 200. -/
theorem claim_C7_witness :
    (0 : ℚ) ≤ (extrapolateState demoStateT1 200).current_progress ∧
    (extrapolateState demoStateT1 200).current_progress ≤ 1 :=
  claim_C7_thm [([], 200)] [("T1", demoStateT1)] "T1" demoStateT1
    (extrapolateState demoStateT1 200) (by simp) rfl zero_lt_one
    ⟨by simp, trivial⟩ ⟨by norm_num [demoStateT1], trivial⟩
    (lookupStore_applySnapshotStore_live [("T1", demoStateT1)] [] 200 "T1"
      demoStateT1 rfl zero_lt_one (by simp))

end NycPulse
